import Mathlib

/-!
Verification development for the Memberstack MCP documentation server
(`src/index.ts`).  The core logic of the server is embedded shallowly:

* A file's text content is modelled as its list of `"\n"`-separated lines
  (`Content`); the `content.split("\n")` performed by the server is therefore
  the identity in the model, and lines are assumed not to contain `'\n'`.
* The documentation root is modelled as an association list `FS` from
  relative paths to `Option Content`; `none` models a file whose read fails
  (`fs.readFile` throwing), `some c` a successful read returning `c`.
* The JavaScript regular expressions used by the server
  (`/^#\s+(.+)$/m`, `/^###\s+`(.+)`/gm`) are translated into explicit
  line-scanning functions, including the cases in which the `\s+` run of the
  pattern crosses line breaks and the greedy `(.+)` takes the last backtick
  of a line.
-/

/-- Characters matched by JavaScript's `\s` regex class (whitespace). -/
def isJsWs (c : Char) : Bool :=
  c == ' ' || c == '\t' || c == '\n' || c == '\r' || c == '\x0b' || c == '\x0c' ||
  c == '\xa0' || c == '\u1680' || (0x2000 ≤ c.toNat && c.toNat ≤ 0x200a) ||
  c == '\u2028' || c == '\u2029' || c == '\u202f' || c == '\u205f' ||
  c == '\u3000' || c == '\ufeff'

/-- Line-terminator characters, which JavaScript's `.` does not match and at
which the multiline `$` anchor matches.  `'\n'` never occurs inside a modelled
line, so it is omitted. -/
def isLineTerm (c : Char) : Bool :=
  c == '\r' || c == '\u2028' || c == '\u2029'

/-- Lowercasing of a string, as `String.prototype.toLowerCase` acts on the
ASCII range. -/
def strLower (s : String) : String := ⟨s.data.map Char.toLower⟩

/-- Uppercasing of a string, as `String.prototype.toUpperCase` acts on the
ASCII range. -/
def strUpper (s : String) : String := ⟨s.data.map Char.toUpper⟩

/-- Does `pat` occur as a contiguous sublist of `s`?  (Helper for
`String.prototype.includes`.) -/
def occursIn (pat : List Char) : List Char → Bool
  | [] => pat.isEmpty
  | c :: cs => pat.isPrefixOf (c :: cs) || occursIn pat cs

/-- `s.includes(pat)` of JavaScript. -/
def strIncludes (s pat : String) : Bool := occursIn pat.data s.data

/-- Split a character list at every occurrence of `c` (the path-separator
splitting used to model `path.basename` and glob's per-component dot rule). -/
def splitChar (c : Char) : List Char → List (List Char)
  | [] => [[]]
  | d :: ds =>
    let r := splitChar c ds
    if d = c then [] :: r
    else
      match r with
      | [] => [[d]]
      | g :: gs => (d :: g) :: gs

/-- `Array.prototype.join(sep)` on a list of strings. -/
def joinSep (sep : String) : List String → String
  | [] => ""
  | [s] => s
  | s :: rest => s ++ sep ++ joinSep sep rest

/-- Remove the first occurrence of `pat` from a character list (helper for
`String.prototype.replace` with a string pattern and empty replacement). -/
def stripFirstAux (pat : List Char) : List Char → List Char
  | [] => []
  | c :: cs =>
    if pat.isPrefixOf (c :: cs) then (c :: cs).drop pat.length
    else c :: stripFirstAux pat cs

/-- `uri.replace(pat, "")` of JavaScript: removes the first occurrence of
`pat`, leaving the string unchanged when `pat` does not occur. -/
def replaceFirst (s pat : String) : String := ⟨stripFirstAux pat.data s.data⟩

/-- The last index (and character) among the positions of `cs` holding a
non-line-terminator character. -/
def lastNonTerm? (cs : List Char) : Option (Nat × Char) :=
  (cs.enum.filter (fun p => !(isLineTerm p.2))).getLast?

/-- The last index at which character `c` occurs in a list. -/
def lastIdxOf (c : Char) : List Char → Option Nat
  | [] => none
  | d :: ds =>
    match lastIdxOf c ds with
    | some k => some (k + 1)
    | none => if d = c then some 0 else none

/-! ## The filesystem model -/

/-- A file's content: its list of `"\n"`-separated lines. -/
abbrev Content := List String

/-- The documentation root: relative path ↦ readable content (`some`) or a
failing read (`none`).  Paths outside the root reachable through `..`
segments of `path.join` are represented as keys starting with `"../"`. -/
abbrev FS := List (String × Option Content)

/-- `fs.readFile(path.join(docsPath, p))`: `some c` when the read succeeds,
`none` when the file is absent or the read throws. -/
def readFile (fs : FS) (p : String) : Option Content :=
  (fs.lookup p).join

/-- Whether `glob("**/*.md", { cwd })` reports a path: the name must end in
`".md"` and no path component may start with a dot (glob's default `dot`
handling, which also keeps the walk inside the root). -/
def globOk (p : String) : Bool :=
  ".md".data.isSuffixOf p.data &&
    (splitChar '/' p.data).all (fun comp => !(comp.head? == some '.'))

/-- The relative paths enumerated by `glob("**/*.md", { cwd: docsPath })`,
in enumeration order. -/
def globMd (fs : FS) : List String :=
  (fs.map Prod.fst).filter globOk

/-- `path.basename(file, ".md")`: the last path component, with a trailing
`".md"` removed unless the component equals `".md"` itself. -/
def basenameNoMd (p : String) : String :=
  let b := (splitChar '/' p.data).getLastD p.data
  if b ≠ ".md".data ∧ ".md".data.isSuffixOf b then ⟨b.take (b.length - 3)⟩
  else ⟨b⟩

/-! ## Categorizer (`getCategoryFromPath`) -/

/-- `getCategoryFromPath` of `src/index.ts`: an ordered chain of substring /
basename rules; the `dir` variable of the source is unused there and is
omitted. -/
def getCategoryFromPath (p : String) : String :=
  if strIncludes p "dom-package" then "dom-api"
  else if strIncludes p "admin-package" then "admin-api"
  else if strIncludes p "rest-api" then "rest-api"
  else if basenameNoMd p = "authentication-flows" then "authentication"
  else if basenameNoMd p = "quick-start" then "quick-start"
  else if basenameNoMd p = "error-handling-guide" then "error-handling"
  else if strIncludes p "integration-patterns" then "integration-patterns"
  else if strIncludes p "decision-trees" then "decision-trees"
  else "general"

/-- An ordered rule list presentation of the same categorisation rules, used
to state that `getCategoryFromPath` is a first-matching-rule-wins evaluation
of a fixed rule list. -/
def categoryRules : List ((String → Bool) × String) :=
  [(fun p => strIncludes p "dom-package", "dom-api"),
   (fun p => strIncludes p "admin-package", "admin-api"),
   (fun p => strIncludes p "rest-api", "rest-api"),
   (fun p => basenameNoMd p == "authentication-flows", "authentication"),
   (fun p => basenameNoMd p == "quick-start", "quick-start"),
   (fun p => basenameNoMd p == "error-handling-guide", "error-handling"),
   (fun p => strIncludes p "integration-patterns", "integration-patterns"),
   (fun p => strIncludes p "decision-trees", "decision-trees")]

/-- The tag of the first rule of a rule list matching `p`, if any. -/
def firstRuleMatch : List ((String → Bool) × String) → String → Option String
  | [], _ => none
  | r :: rs, p => if r.1 p then some r.2 else firstRuleMatch rs p

/-! ## Title extraction (`content.match(/^#\s+(.+)$/m)`) -/

/-- Continuation of a title match whose `\s+` run has crossed a line break:
whitespace-only lines are consumed; the group is the first line owning a
non-whitespace character, from that character to its end of line.  `fb` is
the group produced by backtracking should the run hit the end of input (the
last usable whitespace character). -/
def titleCont (fb : Option Char) : List String → Option String
  | [] => fb.map (fun c => (⟨[c]⟩ : String))
  | l :: rest =>
    if l.data.all isJsWs then
      titleCont
        (match lastNonTerm? l.data with
         | some q => some q.2
         | none => fb) rest
    else
      some ⟨(l.data.dropWhile isJsWs).takeWhile (fun c => !(isLineTerm c))⟩

/-- First match of `/^#\s+(.+)$/m` against the content: a line start, `'#'`,
at least one whitespace character (possibly running across line breaks), then
the captured group up to the end of its line. -/
def titleMatch : List String → Option String
  | [] => none
  | l :: rest =>
    match l.data with
    | '#' :: a =>
      let w := a.takeWhile isJsWs
      let r := a.dropWhile isJsWs
      if r ≠ [] then
        if w ≠ [] then some ⟨r.takeWhile (fun c => !(isLineTerm c))⟩
        else titleMatch rest
      else
        titleCont
          (match lastNonTerm? w with
           | some q => if 1 ≤ q.1 then some q.2 else none
           | none => none) rest
    | _ => titleMatch rest

/-! ## Document catalog (`getDocumentationFiles`) -/

/-- One record of the catalog returned by `getDocumentationFiles`. -/
structure DocFile where
  path : String
  category : String
  title : String
deriving DecidableEq, Repr

/-- The loop body of `getDocumentationFiles`: read each enumerated file in
order; a failing read throws, so the surrounding `try`/`catch` returns the
records accumulated so far and every later file is dropped. -/
def buildGo (fs : FS) : List String → List DocFile
  | [] => []
  | p :: ps =>
    match readFile fs p with
    | none => []
    | some c =>
      ⟨p, getCategoryFromPath p, (titleMatch c).getD (basenameNoMd p)⟩ :: buildGo fs ps

/-- `getDocumentationFiles` of `src/index.ts`. -/
def getDocumentationFiles (fs : FS) : List DocFile :=
  buildGo fs (globMd fs)

/-! ## Search engine (`searchDocumentation`) -/

/-- One entry of the `results` array of `searchDocumentation`. -/
structure SearchResult where
  file : String
  title : String
  matchBlocks : List String
deriving DecidableEq, Repr

/-- `line.toLowerCase().includes(query.toLowerCase())`. -/
def lineMatches (q l : String) : Bool :=
  strIncludes (strLower l) (strLower q)

/-- The context block emitted for a match at line `i`:
`[lines[i-1] || "", line, lines[i+1] || ""].filter(Boolean).join("\n")` —
out-of-range neighbours become `""`, and `filter(Boolean)` removes every
empty string before joining. -/
def contextAt (lines : Content) (i : Nat) : String :=
  joinSep "\n"
    (([if i = 0 then "" else lines.getD (i - 1) "",
       lines.getD i "",
       lines.getD (i + 1) ""]).filter (fun s => s != ""))

/-- All context blocks collected by the `lines.forEach` loop, in
top-to-bottom scan order (before the `slice(0, 5)` cap). -/
def docMatches (q : String) (lines : Content) : List String :=
  (List.range lines.length).filterMap (fun i =>
    if lineMatches q (lines.getD i "") then some (contextAt lines i) else none)

/-- The category guard `if (category && file.category !== category) continue`:
a document is processed when no category is given, the given category is the
empty string (falsy), or the categories agree. -/
def catFilter (cat? : Option String) (fileCat : String) : Bool :=
  match cat? with
  | none => true
  | some c => c == "" || fileCat == c

/-- The document loop of `searchDocumentation` over the catalog: each
processed file is re-read (`none` models the uncaught exception of a failing
re-read aborting the whole call), matched, and kept with its first five
context blocks when it has at least one match. -/
def searchGo (fs : FS) (q : String) (cat? : Option String) :
    List DocFile → Option (List SearchResult)
  | [] => some []
  | f :: rest =>
    if catFilter cat? f.category then
      match readFile fs f.path with
      | none => none
      | some c =>
        match searchGo fs q cat? rest with
        | none => none
        | some rs =>
          let ms := docMatches q c
          some (if ms.isEmpty then rs else ⟨f.path, f.title, ms.take 5⟩ :: rs)
    else searchGo fs q cat? rest

/-- The `results` array produced by `searchDocumentation fs q cat?`. -/
def searchResults (fs : FS) (q : String) (cat? : Option String) :
    Option (List SearchResult) :=
  searchGo fs q cat? (getDocumentationFiles fs)

/-- The explicit no-matches response text of `searchDocumentation`. -/
def noMatchesText (q : String) : String :=
  "No matches found for \"" ++ q ++ "\""

/-- The response text assembled when at least one document matched. -/
def foundText (rs : List SearchResult) : String :=
  "Found " ++ toString rs.length ++ " files with matches:\n\n" ++
    joinSep "\n\n"
      (rs.map (fun r =>
        "### " ++ r.title ++ " (" ++ r.file ++ ")\n" ++ joinSep "\n---\n" r.matchBlocks))

/-- The single text payload returned by `searchDocumentation`. -/
def searchResponse (fs : FS) (q : String) (cat? : Option String) : Option String :=
  (searchResults fs q cat?).map (fun rs =>
    if rs.isEmpty then noMatchesText q else foundText rs)

/-! ## Method-signature extraction (`listMethods`) -/

/-- The `methodMappings` table of `listMethods`. -/
def methodMappings (pkg : String) : Option String :=
  if pkg = "dom" then some "dom-package/dom-api-reference.md"
  else if pkg = "admin" then some "admin-package/admin-api-reference.md"
  else if pkg = "rest" then some "rest-api/rest-api-reference.md"
  else none

/-- The captured group of `` `(.+)` `` applied after an opening backtick:
the text up to the last backtick of the line (the greedy `.+` cannot cross a
line terminator and must be non-empty). -/
def tokenOf (cs : List Char) : Option String :=
  match lastIdxOf '`' (cs.takeWhile (fun c => !(isLineTerm c))) with
  | some k =>
    if 1 ≤ k then some ⟨(cs.takeWhile (fun c => !(isLineTerm c))).take k⟩ else none
  | none => none

/-- The treatment of one line as a potential `^###` anchor of
`` /^###\s+`(.+)`/gm ``: `some (some t)` when the whole match closes on this
line with captured group `t`; `some none` when the line is `"###"` followed
only by whitespace, so the `\s+` run continues across the line break;
`none` when no match can start at this line. -/
def anchorLine (l : String) : Option (Option String) :=
  if l.data.take 3 = ['#', '#', '#'] then
    if (l.data.drop 3).dropWhile isJsWs = [] then some none
    else if (l.data.drop 3).takeWhile isJsWs ≠ [] ∧
        ((l.data.drop 3).dropWhile isJsWs).head? = some '`' then
      match tokenOf (((l.data.drop 3).dropWhile isJsWs).drop 1) with
      | some t => some (some t)
      | none => none
    else none
  else none

/-- The scan of `` /^###\s+`(.+)`/gm `` over the content.  In mode `false`
the scanner looks for an anchoring line (`anchorLine`); in mode `true` the
`\s+` run of a pending match crosses line breaks until a line whose first
non-whitespace character opens a backtick token (whitespace-only lines are
consumed).  A failed pending attempt makes the engine rescan from the line
that ended it: when that line's first non-whitespace character is the
backtick it cannot itself anchor a `^###` match, so the scan moves on;
otherwise its anchor treatment is performed in place (keeping the recursion
structural on the line list). -/
def extractScan : Bool → List String → List String
  | _, [] => []
  | false, l :: rest =>
    match anchorLine l with
    | some (some t) => t :: extractScan false rest
    | some none => extractScan true rest
    | none => extractScan false rest
  | true, l :: rest =>
    if l.data.all isJsWs then extractScan true rest
    else
      let r := l.data.dropWhile isJsWs
      if r.head? = some '`' then
        match tokenOf (r.drop 1) with
        | some t => t :: extractScan false rest
        | none => extractScan false rest
      else
        match anchorLine l with
        | some (some t) => t :: extractScan false rest
        | some none => extractScan true rest
        | none => extractScan false rest

/-- The `methods` array extracted by `listMethods` from a file's content. -/
def extractMethods (c : Content) : List String :=
  extractScan false c

/-- `listMethods` of `src/index.ts`, returning its single text payload. -/
def listMethods (fs : FS) (pkg : String) : String :=
  match methodMappings pkg with
  | none => "Unknown package: " ++ pkg ++ ". Available packages: dom, admin, rest"
  | some fp =>
    match readFile fs fp with
    | none => "Error reading " ++ pkg ++ " documentation"
    | some c =>
      "## " ++ strUpper pkg ++ " Package Methods\n\n" ++ joinSep "\n" (extractMethods c)

/-! ## Resources (`ListResources` / `ReadResource` handlers) -/

/-- The `DOC_CATEGORIES` table. -/
def DOC_CATEGORIES : List (String × String) :=
  [("dom-api", "DOM Package API Reference"),
   ("admin-api", "Admin Package API Reference"),
   ("rest-api", "REST API Reference"),
   ("authentication", "Authentication Flows"),
   ("quick-start", "Quick Start Guide"),
   ("error-handling", "Error Handling Guide"),
   ("integration-patterns", "Integration Patterns"),
   ("decision-trees", "Method Decision Trees")]

/-- One resource entry returned by the `ListResources` handler (the constant
`mimeType` field is omitted). -/
structure ResHandle where
  uri : String
  name : String
  description : String
deriving DecidableEq, Repr

/-- The `ListResources` handler: one handle per catalog record. -/
def listResources (fs : FS) : List ResHandle :=
  (getDocumentationFiles fs).map (fun f =>
    ⟨"memberstack://" ++ f.path, f.title,
     ((DOC_CATEGORIES.lookup f.category).getD f.category) ++ " - " ++ f.title⟩)

/-- The `ReadResource` handler: strips the first occurrence of
`"memberstack://"` from the identifier, joins what remains onto the docs
root and reads it; a failing read throws an error naming the stripped path.
No catalog membership check is performed. -/
def readResource (fs : FS) (uri : String) : Except String Content :=
  match readFile fs (replaceFirst uri "memberstack://") with
  | some c => Except.ok c
  | none =>
    Except.error ("Could not read documentation file: " ++ replaceFirst uri "memberstack://")

/-! ## Concrete corpora used by the claim analyses -/

/-- A corpus in which the first enumerated file fails to read and the second
is readable. -/
def fsB : FS := [("a.md", none), ("b.md", some ["# B"])]

/-- A corpus in which the second enumerated file fails to read. -/
def fsB2 : FS := [("b.md", some ["# B"]), ("a.md", none)]

/-- A root containing only a non-markdown file, which the glob never
enumerates. -/
def fsTxt : FS := [("secret.txt", some ["top secret"])]

/-- A root with one catalogued document and one file outside the root that a
`..`-escaping joined path reaches. -/
def fsEscape : FS :=
  [("inside.md", some ["# In"]), ("../outside.md", some ["outside the docs root"])]

/-- A one-document corpus whose document has a single non-empty line and no
heading. -/
def fsHello : FS := [("a.md", some ["hello"])]

/-- A one-document corpus whose document contains an interior space. -/
def fsWs : FS := [("a.md", some ["hello world"])]

/-! ## C2 — catalog build under individual read failures -/

/-- Claim C2 (corrected): when reading a file fails, `getDocumentationFiles`
does not skip just that file — the `try`/`catch` around the whole loop makes
the build return only the records accumulated before the failure, so every
enumerated file from the failing one on is dropped, readable or not. -/
theorem C2_read_failure_truncates_catalog :
    ∀ (fs : FS) (ps qs : List String) (p : String),
      readFile fs p = none →
      buildGo fs (ps ++ p :: qs) = buildGo fs ps := by
  intro fs ps qs p h
  induction ps with
  | nil => simp [buildGo, h]
  | cons a ps ih =>
    simp only [List.cons_append, buildGo]
    cases readFile fs a <;> simp [ih]

/-- Witness for C2: a corpus where `"b.md"` is read before `"a.md"` fails;
the record of `"b.md"` survives and everything after the failure is cut. -/
theorem C2_witness :
    readFile fsB2 "a.md" = none ∧
      buildGo fsB2 (["b.md"] ++ "a.md" :: []) = buildGo fsB2 ["b.md"] :=
  ⟨rfl, C2_read_failure_truncates_catalog fsB2 ["b.md"] [] "a.md" rfl⟩

/-- Counterexample to C2 as stated: `"b.md"` is perfectly readable, yet after
the read failure of the earlier `"a.md"` it contributes no record. -/
theorem C2_counterexample :
    readFile fsB "b.md" = some ["# B"] ∧ getDocumentationFiles fsB = [] := by
  constructor <;> rfl

/-! ## C4 — listMethods when the mapped file is absent -/

/-- Claim C4 (corrected): when the file mapped to a valid package id cannot
be read, `listMethods` does not return an empty signature listing — the
`catch` produces the error text `"Error reading <package> documentation"`.
No exception propagates. -/
theorem C4_missing_file_yields_error_text :
    ∀ (fs : FS) (pkg fp : String),
      methodMappings pkg = some fp →
      readFile fs fp = none →
      listMethods fs pkg = "Error reading " ++ pkg ++ " documentation" := by
  intro fs pkg fp h1 h2
  simp [listMethods, h1, h2]

/-- Witness for C4 at the `dom` package over an empty root. -/
theorem C4_witness :
    methodMappings "dom" = some "dom-package/dom-api-reference.md" ∧
      readFile ([] : FS) "dom-package/dom-api-reference.md" = none ∧
      listMethods ([] : FS) "dom" = "Error reading " ++ "dom" ++ " documentation" :=
  ⟨rfl, rfl,
    C4_missing_file_yields_error_text [] "dom" "dom-package/dom-api-reference.md" rfl rfl⟩

/-- Counterexample to C4 as stated: over an empty root the `dom` response is
the error text, not the response carrying an empty signature sequence. -/
theorem C4_counterexample :
    listMethods ([] : FS) "dom" = "Error reading dom documentation" ∧
      listMethods ([] : FS) "dom" ≠
        "## " ++ strUpper "dom" ++ " Package Methods\n\n" ++ joinSep "\n" [] := by
  constructor <;> decide

/-! ## C3 / C10 — readResource and the catalog -/

/-- Claim C3 (corrected): `readResource` never consults the catalog; it
produces an error exactly when the resolved path cannot be read, and that
error names the identifier's path part.  An identifier absent from the
catalog whose path is readable returns content instead of an error. -/
theorem C3_error_iff_unreadable :
    ∀ (fs : FS) (uri : String),
      ((∃ msg, readResource fs uri = Except.error msg) ↔
        readFile fs (replaceFirst uri "memberstack://") = none) ∧
      (∀ msg, readResource fs uri = Except.error msg →
        msg = "Could not read documentation file: " ++ replaceFirst uri "memberstack://") := by
  intro fs uri
  simp only [readResource]
  cases h : readFile fs (replaceFirst uri "memberstack://") <;> simp [h]

/-- Witness for C3 at an unreadable identifier over an empty root. -/
theorem C3_witness :
    ((∃ msg, readResource ([] : FS) "memberstack://missing.md" = Except.error msg) ↔
      readFile ([] : FS) (replaceFirst "memberstack://missing.md" "memberstack://") = none) ∧
    (∀ msg, readResource ([] : FS) "memberstack://missing.md" = Except.error msg →
      msg = "Could not read documentation file: " ++
        replaceFirst "memberstack://missing.md" "memberstack://") :=
  C3_error_iff_unreadable [] "memberstack://missing.md"

/-- Counterexample to C3 as stated: `"secret.txt"` is not in the catalog
(the catalog is empty), yet `readResource` returns its content rather than a
`NotFound` error naming the identifier. -/
theorem C3_counterexample :
    getDocumentationFiles fsTxt = [] ∧
      readResource fsTxt "memberstack://secret.txt" = Except.ok ["top secret"] :=
  ⟨by decide, rfl⟩

/-- Claim C10 (confirmed): `readResource` resolves an identifier purely by
stripping the scheme and joining to the root — it succeeds exactly when the
resulting path is readable, and a `..`-escaping identifier absent from the
catalog returns that outside file's content. -/
theorem C10_readResource_ignores_catalog :
    (∀ (fs : FS) (uri : String),
      (∃ c, readResource fs uri = Except.ok c) ↔
        readFile fs (replaceFirst uri "memberstack://") ≠ none) ∧
    (getDocumentationFiles fsEscape).map DocFile.path = ["inside.md"] ∧
    readResource fsEscape "memberstack://../outside.md" =
      Except.ok ["outside the docs root"] := by
  refine ⟨?_, by decide, rfl⟩
  intro fs uri
  simp only [readResource]
  cases h : readFile fs (replaceFirst uri "memberstack://") <;> simp [h]

/-- Witness for C10 at the escaping identifier. -/
theorem C10_witness :
    (∃ c, readResource fsEscape "memberstack://../outside.md" = Except.ok c) ↔
      readFile fsEscape (replaceFirst "memberstack://../outside.md" "memberstack://") ≠ none :=
  C10_readResource_ignores_catalog.1 fsEscape "memberstack://../outside.md"

/-! ## C7 — the categorizer -/

/-- Claim C7 (confirmed): `getCategoryFromPath` is total and deterministic (a
pure function), agrees with evaluating the fixed ordered rule list with the
first matching rule winning, always lands in the fixed tag set, and returns
`"general"` exactly when no rule matches. -/
theorem C7_categorizer_total_firstmatch :
    ∀ p : String,
      getCategoryFromPath p = (firstRuleMatch categoryRules p).getD "general" ∧
      getCategoryFromPath p ∈
        ["dom-api", "admin-api", "rest-api", "authentication", "quick-start",
         "error-handling", "integration-patterns", "decision-trees", "general"] ∧
      (getCategoryFromPath p = "general" ↔ firstRuleMatch categoryRules p = none) := by
  intro p
  simp only [getCategoryFromPath, categoryRules, firstRuleMatch, beq_iff_eq]
  split_ifs <;> exact ⟨rfl, by decide, by decide⟩

/-- Witness for C7 at a concrete path. -/
theorem C7_witness :
    getCategoryFromPath "dom-package/dom-api-reference.md" ∈
      ["dom-api", "admin-api", "rest-api", "authentication", "quick-start",
       "error-handling", "integration-patterns", "decision-trees", "general"] :=
  (C7_categorizer_total_firstmatch "dom-package/dom-api-reference.md").2.1

/-! ## C1 — the empty / whitespace-only query -/

/-- The empty pattern occurs in every string. -/
theorem occursIn_nil : ∀ cs : List Char, occursIn [] cs = true := by
  intro cs
  cases cs <;> simp [occursIn, List.isPrefixOf]

/-- Every line matches the empty query. -/
theorem lineMatches_empty : ∀ l : String, lineMatches "" l = true := by
  intro l
  simp only [lineMatches, strIncludes, strLower]
  exact occursIn_nil _

/-- The head character of the found-results response text. -/
theorem foundText_head : ∀ rs : List SearchResult, (foundText rs).data.head? = some 'F' := by
  intro rs
  simp [foundText, String.data_append]

/-- The head character of the no-matches response text. -/
theorem noMatchesText_head : ∀ q : String, (noMatchesText q).data.head? = some 'N' := by
  intro q
  simp [noMatchesText, String.data_append]

/-- The two response texts of the search operation never coincide. -/
theorem foundText_ne_noMatchesText :
    ∀ (rs : List SearchResult) (q : String), foundText rs ≠ noMatchesText q := by
  intro rs q h
  have h1 := foundText_head rs
  rw [h, noMatchesText_head] at h1
  simp at h1

/-- Claim C1 (corrected): an empty query is not special-cased — the empty
string is a substring of every line, so every line of every readable
document matches it, and the explicit no-matches response is produced
exactly when the result list is empty (for the empty query that requires
every processed document to have no lines at all).  Whitespace-only queries
are likewise ordinary substring queries. -/
theorem C1_empty_query_matches_all_lines :
    (∀ l : String, lineMatches "" l = true) ∧
    (∀ lines : Content, (docMatches "" lines).length = lines.length) ∧
    (∀ (fs : FS) (q : String) (cat? : Option String),
      searchResponse fs q cat? = some (noMatchesText q) ↔
        searchResults fs q cat? = some []) := by
  refine ⟨lineMatches_empty, ?_, ?_⟩
  · intro lines
    unfold docMatches
    have hf : (fun i => if lineMatches "" (lines.getD i "") then some (contextAt lines i)
        else none) = fun i => some (contextAt lines i) := by
      funext i
      simp [lineMatches_empty]
    rw [hf, show (fun i => some (contextAt lines i)) = some ∘ contextAt lines from rfl,
      List.filterMap_eq_map]
    simp
  · intro fs q cat?
    unfold searchResponse
    rcases h : searchResults fs q cat? with _ | (_ | ⟨r, rs'⟩) <;>
      simp [h, foundText_ne_noMatchesText]

/-- Witness for C1 over an empty root, where the no-matches response and the
empty result list do coincide. -/
theorem C1_witness :
    searchResponse ([] : FS) "x" none = some (noMatchesText "x") ↔
      searchResults ([] : FS) "x" none = some [] :=
  C1_empty_query_matches_all_lines.2.2 [] "x" none

/-- Counterexample to C1 as stated: on a catalog with one one-line document
the empty query produces a match (the whole line), and so does the
whitespace-only query `" "` on a document whose line contains a space — in
neither case is the no-matches response returned. -/
theorem C1_counterexample :
    searchResults fsHello "" none = some [⟨"a.md", "a", ["hello"]⟩] ∧
      searchResponse fsHello "" none ≠ some (noMatchesText "") ∧
      searchResults fsWs " " none = some [⟨"a.md", "a", ["hello world"]⟩] ∧
      searchResponse fsWs " " none ≠ some (noMatchesText " ") := by
  refine ⟨by decide, by decide, by decide, by decide⟩

/-! ## C6 — the per-document cap of five context windows -/

/-- Every result produced by the search loop carries at most five context
blocks (`matches.slice(0, 5)`). -/
theorem searchGo_cap :
    ∀ (fs : FS) (q : String) (cat? : Option String) (fl : List DocFile)
      (rs : List SearchResult) (r : SearchResult),
      searchGo fs q cat? fl = some rs → r ∈ rs → r.matchBlocks.length ≤ 5 := by
  intro fs q cat? fl
  induction fl with
  | nil =>
    intro rs r h hr
    simp [searchGo] at h
    subst h
    simp at hr
  | cons f fl ih =>
    intro rs r h hr
    simp only [searchGo] at h
    split at h
    · split at h
      · exact absurd h (by simp)
      · split at h
        · exact absurd h (by simp)
        · rename_i c hc rs' hrs'
          simp only [Option.some.injEq] at h
          subst h
          split at hr
          · exact ih rs' r hrs' hr
          · rcases List.mem_cons.mp hr with h1 | h1
            · subst h1
              simp only []
              exact List.length_take_le 5 (docMatches q _)
            · exact ih rs' r hrs' h1
    · exact ih rs r h hr

/-- The document whose seven lines all match the query `"q"`. -/
def sevenLines : Content := ["q1", "q2", "q3", "q4", "q5", "q6", "q7"]

/-- A corpus with two documents of seven matching lines each. -/
def fsSeven : FS := [("a.md", some sevenLines), ("b.md", some sevenLines)]

/-- Claim C6 (confirmed): the number of context windows reported for any one
document never exceeds five, and a document with exactly seven matching
lines yields exactly the first five windows in scan order; the cap is
per-document, so each of two such documents gets its own five windows. -/
theorem C6_per_document_cap :
    (∀ (fs : FS) (q : String) (cat? : Option String)
       (rs : List SearchResult) (r : SearchResult),
       searchResults fs q cat? = some rs → r ∈ rs → r.matchBlocks.length ≤ 5) ∧
    (docMatches "q" sevenLines).length = 7 ∧
    (docMatches "q" sevenLines).take 5 =
      ["q1\nq2", "q1\nq2\nq3", "q2\nq3\nq4", "q3\nq4\nq5", "q4\nq5\nq6"] ∧
    searchResults fsSeven "q" none =
      some [⟨"a.md", "a", (docMatches "q" sevenLines).take 5⟩,
            ⟨"b.md", "b", (docMatches "q" sevenLines).take 5⟩] := by
  refine ⟨?_, by decide, by decide, by decide⟩
  intro fs q cat? rs r h hr
  exact searchGo_cap fs q cat? (getDocumentationFiles fs) rs r h hr

/-- Witness for C6 at the two-document corpus. -/
theorem C6_witness :
    (⟨"a.md", "a", (docMatches "q" sevenLines).take 5⟩ : SearchResult).matchBlocks.length ≤ 5 :=
  C6_per_document_cap.1 fsSeven "q" none
    [⟨"a.md", "a", (docMatches "q" sevenLines).take 5⟩,
     ⟨"b.md", "b", (docMatches "q" sevenLines).take 5⟩]
    ⟨"a.md", "a", (docMatches "q" sevenLines).take 5⟩ (by decide) (by decide)

/-! ## C5 — the shape of a context window -/

/-- The window prescribed by the specification's words: the previous line
(if that line exists), the matched line, and the next line (if that line
exists), joined as text. -/
def specWindow (lines : Content) (i : Nat) : String :=
  joinSep "\n"
    ((if i = 0 then [] else [lines.getD (i - 1) ""]) ++
      [lines.getD i ""] ++
      (if i + 1 < lines.length then [lines.getD (i + 1) ""] else []))

/-- A document whose matching line is preceded by an empty line. -/
def fsEmptyPrev : FS := [("a.md", some ["", "q here", "z"])]

/-- The corpus of the concrete verification scenario. -/
def fsVerify : FS :=
  [("g.md", some ["# Guide", "Please verify your email before logging in", "Next steps"])]

/-- Claim C5 (corrected): the emitted context window agrees with the
specification's previous/matched/next join only when the lines involved are
non-empty — `filter(Boolean)` drops an existing empty neighbour (and an
out-of-range default) entirely instead of contributing an empty segment.
Under non-emptiness of the participating lines the window is exactly the
prescribed join, and the concrete email-verification scenario holds. -/
theorem C5_window_shape :
    (∀ (lines : Content) (i : Nat), i < lines.length →
       (i ≠ 0 → lines.getD (i - 1) "" ≠ "") →
       lines.getD i "" ≠ "" →
       (i + 1 < lines.length → lines.getD (i + 1) "" ≠ "") →
       contextAt lines i = specWindow lines i) ∧
    searchResults fsVerify "verify your email" none =
      some [⟨"g.md", "Guide",
        ["# Guide\nPlease verify your email before logging in\nNext steps"]⟩] := by
  refine ⟨?_, by decide⟩
  intro lines i hi h0 hm h1
  by_cases hz : i = 0
  · subst hz
    by_cases hn : 0 + 1 < lines.length
    · have hne := h1 hn
      simp [contextAt, specWindow, List.filter_cons, hn, joinSep]
      split_ifs <;> simp_all [joinSep]
    · have hgd : lines.getD (0 + 1) "" = "" :=
        List.getD_eq_default _ _ (by omega)
      simp [contextAt, specWindow, List.filter_cons, hn, hgd, joinSep]
      split_ifs <;> simp_all [joinSep]
  · have hp := h0 hz
    by_cases hn : i + 1 < lines.length
    · have hne := h1 hn
      simp [contextAt, specWindow, List.filter_cons, hz, hn, joinSep]
      split_ifs <;> simp_all [joinSep]
    · have hgd : lines.getD (i + 1) "" = "" :=
        List.getD_eq_default _ _ (by omega)
      simp [contextAt, specWindow, List.filter_cons, hz, hn, hgd, joinSep]
      split_ifs <;> simp_all [joinSep]

/-- Witness for C5 on a three-line document with non-empty neighbours. -/
theorem C5_witness :
    contextAt ["a", "b q", "c"] 1 = specWindow ["a", "b q", "c"] 1 :=
  C5_window_shape.1 ["a", "b q", "c"] 1 (by decide) (by decide) (by decide) (by decide)

/-- Counterexample to C5 as stated: with an existing but empty previous
line, the emitted window omits it, while the claim's join would start with
an empty segment and a line break. -/
theorem C5_counterexample :
    searchResults fsEmptyPrev "q" none = some [⟨"a.md", "a", ["q here\nz"]⟩] ∧
      specWindow ["", "q here", "z"] 1 = "\nq here\nz" ∧
      contextAt ["", "q here", "z"] 1 ≠ specWindow ["", "q here", "z"] 1 := by
  refine ⟨by decide, by decide, by decide⟩

/-! ## C8 — signature extraction from level-3 headings -/

/-- A level-3 heading line holding a single backtick-delimited token `t`:
three hashes, whitespace, then exactly the backticked token.  The token is
non-empty and contains neither a backtick nor a line terminator. -/
def IsSingleTokenH3 (l t : String) : Prop :=
  ∃ w : String,
    w.data ≠ [] ∧ (∀ c ∈ w.data, isJsWs c = true) ∧
    t.data ≠ [] ∧ (∀ c ∈ t.data, c ≠ '`' ∧ isLineTerm c = false) ∧
    l = "###" ++ w ++ "`" ++ t ++ "`"

/-- `takeWhile` keeps a list all of whose elements satisfy the predicate. -/
theorem takeWhile_of_all {p : Char → Bool} :
    ∀ l : List Char, (∀ c ∈ l, p c = true) → l.takeWhile p = l := by
  intro l h
  induction l with
  | nil => rfl
  | cons a l ih =>
    rw [List.takeWhile_cons, if_pos (h a (by simp))]
    rw [ih (fun c hc => h c (by simp [hc]))]

/-- `takeWhile` over a satisfying block followed by a failing head stops at
the block. -/
theorem takeWhile_append_head {p : Char → Bool} :
    ∀ (w : List Char) (c : Char) (r : List Char),
      (∀ x ∈ w, p x = true) → p c = false → (w ++ c :: r).takeWhile p = w := by
  intro w c r hw hc
  induction w with
  | nil => simp [List.takeWhile_cons, hc]
  | cons a w ih =>
    rw [List.cons_append, List.takeWhile_cons, if_pos (hw a (by simp))]
    rw [ih (fun x hx => hw x (by simp [hx]))]

/-- `dropWhile` over a satisfying block followed by a failing head drops
exactly the block. -/
theorem dropWhile_append_head {p : Char → Bool} :
    ∀ (w : List Char) (c : Char) (r : List Char),
      (∀ x ∈ w, p x = true) → p c = false → (w ++ c :: r).dropWhile p = c :: r := by
  intro w c r hw hc
  induction w with
  | nil => simp [List.dropWhile_cons, hc]
  | cons a w ih =>
    rw [List.cons_append, List.dropWhile_cons, if_pos (hw a (by simp))]
    exact ih (fun x hx => hw x (by simp [hx]))

/-- The last occurrence of `c` in `cs ++ [c]` when `c` does not occur in
`cs` is at index `cs.length`. -/
theorem lastIdxOf_append_self :
    ∀ (cs : List Char) (c : Char), c ∉ cs → lastIdxOf c (cs ++ [c]) = some cs.length := by
  intro cs c hc
  induction cs with
  | nil => simp [lastIdxOf]
  | cons d ds ih =>
    have hd : d ≠ c := fun h => hc (by simp [h])
    have ihds := ih (fun h => hc (by simp [h]))
    simp [lastIdxOf, ihds]

/-- The captured group of a backticked token closed at the end of the line
is exactly the token. -/
theorem tokenOf_closing :
    ∀ t : String, t.data ≠ [] → (∀ c ∈ t.data, c ≠ '`' ∧ isLineTerm c = false) →
      tokenOf (t.data ++ ['`']) = some t := by
  intro t ht hall
  unfold tokenOf
  have hpre : (t.data ++ ['`']).takeWhile (fun c => !(isLineTerm c)) = t.data ++ ['`'] := by
    refine takeWhile_of_all _ ?_
    intro c hc
    rcases List.mem_append.mp hc with h | h
    · simp [(hall c h).2]
    · simp at h
      subst h
      decide
  rw [hpre]
  have hidx : lastIdxOf '`' (t.data ++ ['`']) = some t.data.length :=
    lastIdxOf_append_self t.data '`' (fun hmem => (hall '`' hmem).1 rfl)
  rw [hidx]
  dsimp only
  have hk : 1 ≤ t.data.length := by
    cases hd : t.data with
    | nil => exact absurd hd ht
    | cons a l => simp [hd]
  rw [if_pos hk, List.take_left]

/-- A single-token level-3 heading line anchors a full match whose captured
group is the token. -/
theorem anchorLine_single :
    ∀ (l t : String), IsSingleTokenH3 l t → anchorLine l = some (some t) := by
  rintro l t ⟨w, hw, hwall, ht, htall, rfl⟩
  unfold anchorLine
  have hd : ("###" ++ w ++ "`" ++ t ++ "`").data
      = '#' :: '#' :: '#' :: (w.data ++ '`' :: (t.data ++ ['`'])) := by
    simp [String.data_append]
  rw [hd]
  have htw : (w.data ++ '`' :: (t.data ++ ['`'])).takeWhile isJsWs = w.data :=
    takeWhile_append_head w.data '`' _ hwall (by decide)
  have hdw : (w.data ++ '`' :: (t.data ++ ['`'])).dropWhile isJsWs = '`' :: (t.data ++ ['`']) :=
    dropWhile_append_head w.data '`' _ hwall (by decide)
  rw [if_pos (show List.take 3 ('#' :: '#' :: '#' :: (w.data ++ '`' :: (t.data ++ ['`'])))
      = ['#', '#', '#'] from rfl)]
  rw [show List.drop 3 ('#' :: '#' :: '#' :: (w.data ++ '`' :: (t.data ++ ['`'])))
      = w.data ++ '`' :: (t.data ++ ['`']) from rfl]
  rw [htw, hdw]
  rw [if_neg (show ¬('`' :: (t.data ++ ['`']) = []) by simp)]
  rw [if_pos (show w.data ≠ [] ∧ ('`' :: (t.data ++ ['`'])).head? = some '`' from ⟨hw, rfl⟩)]
  rw [show List.drop 1 ('`' :: (t.data ++ ['`'])) = t.data ++ ['`'] from rfl]
  rw [tokenOf_closing t ht htall]

/-- The corpus of the concrete `listMethods` scenario, carrying the two
heading lines of the claim in its `dom` reference file. -/
def fsDom : FS :=
  [("dom-package/dom-api-reference.md",
    some ["### `loginMemberEmailPassword`", "Some text.", "### `logoutMember`"])]

/-- Claim C8 (confirmed): every line that is a level-3 heading holding a
single backtick-delimited token contributes exactly that token, at its
position in document order and preserving duplicates verbatim; the concrete
two-heading document yields `["loginMemberEmailPassword", "logoutMember"]`
in that order through `listMethods`. -/
theorem C8_signature_extraction :
    (∀ (l t : String) (rest : List String),
       IsSingleTokenH3 l t → extractScan false (l :: rest) = t :: extractScan false rest) ∧
    extractMethods ["### `loginMemberEmailPassword`", "Some text.", "### `logoutMember`"] =
      ["loginMemberEmailPassword", "logoutMember"] ∧
    extractMethods ["### `dup`", "### `dup`"] = ["dup", "dup"] ∧
    listMethods fsDom "dom" =
      "## DOM Package Methods\n\nloginMemberEmailPassword\nlogoutMember" := by
  refine ⟨?_, by decide, by decide, by decide⟩
  intro l t rest h
  rw [extractScan, anchorLine_single l t h]

/-- Witness for C8 at a concrete heading line. -/
theorem C8_witness :
    extractScan false ["### `loginMember`", "x"] = "loginMember" :: extractScan false ["x"] :=
  C8_signature_extraction.1 "### `loginMember`" "loginMember" ["x"]
    ⟨" ", by decide, by decide, by decide, by decide, by decide⟩

/-! ## C9 — the listResources / readResource round trip -/

/-- A list is a `Bool`-prefix of itself followed by anything. -/
theorem isPrefixOf_self_append :
    ∀ (l r : List Char), l.isPrefixOf (l ++ r) = true := by
  intro l r
  induction l with
  | nil => simp [List.isPrefixOf]
  | cons a l ih => simp [List.isPrefixOf, ih]

/-- Stripping the first occurrence of a leading pattern removes exactly the
pattern. -/
theorem stripFirstAux_prefix :
    ∀ (pat rest : List Char), pat ≠ [] → stripFirstAux pat (pat ++ rest) = rest := by
  intro pat rest hp
  cases pat with
  | nil => exact absurd rfl hp
  | cons c cs =>
    show stripFirstAux (c :: cs) (c :: (cs ++ rest)) = rest
    simp only [stripFirstAux]
    rw [if_pos (show (c :: cs).isPrefixOf (c :: (cs ++ rest)) = true from
      isPrefixOf_self_append (c :: cs) rest)]
    simp only [List.length_cons, List.drop_succ_cons]
    exact List.drop_left cs rest

/-- `uri.replace("memberstack://", "")` on a uri built by prefixing the
scheme recovers the original path. -/
theorem replaceFirst_scheme :
    ∀ p : String, replaceFirst ("memberstack://" ++ p) "memberstack://" = p := by
  intro p
  unfold replaceFirst
  have hd : ("memberstack://" ++ p).data = "memberstack://".data ++ p.data := by
    simp [String.data_append]
  rw [hd, stripFirstAux_prefix _ _ (by decide)]

/-- Every record of the catalog loop was built from a successful read of its
path, with the title extracted from that content (or the filename
fallback). -/
theorem buildGo_mem :
    ∀ (fs : FS) (ps : List String) (f : DocFile), f ∈ buildGo fs ps →
      ∃ c, readFile fs f.path = some c ∧
        f.title = (titleMatch c).getD (basenameNoMd f.path) := by
  intro fs ps
  induction ps with
  | nil =>
    intro f hf
    simp [buildGo] at hf
  | cons p ps ih =>
    intro f hf
    simp only [buildGo] at hf
    cases h : readFile fs p with
    | none =>
      rw [h] at hf
      simp at hf
    | some c =>
      rw [h] at hf
      simp only [List.mem_cons] at hf
      rcases hf with h1 | h1
      · subst h1
        exact ⟨c, by simp [h], by simp⟩
      · exact ih f h1

/-- The spec-worded first level-1 heading of a content: the first line that
is a hash, whitespace, and a non-empty remainder, which is the heading
text. -/
def specFirstHeading (ls : Content) : Option String :=
  ls.findSome? (fun l =>
    match l.data with
    | '#' :: a =>
      if a.takeWhile isJsWs ≠ [] ∧ a.dropWhile isJsWs ≠ [] then
        some (⟨a.dropWhile isJsWs⟩ : String)
      else none
    | _ => none)

/-- A corpus whose single document has no heading at all. -/
def fsPlain : FS := [("plain.md", some ["hello"])]

/-- A corpus whose single document opens with a level-1 heading. -/
def fsG : FS := [("g.md", some ["# G"])]

/-- Claim C9 (corrected): for every handle of `listResources` over an
unchanged corpus, `readResource` with the handle's identifier succeeds and
returns the document's content; whenever the title-extraction pattern finds
a level-1 heading in that content the extracted text equals the handle's
title — but for a document without a heading the title is the filename
fallback, so the heading equality asserted by the claim has no heading to
hold of. -/
theorem C9_roundtrip_read_succeeds :
    ∀ (fs : FS) (h : ResHandle), h ∈ listResources fs →
      ∃ c : Content, readResource fs h.uri = Except.ok c ∧
        ∀ t : String, titleMatch c = some t → h.name = t := by
  intro fs h hh
  simp only [listResources, List.mem_map] at hh
  obtain ⟨f, hf, rfl⟩ := hh
  obtain ⟨c, hc, htitle⟩ := buildGo_mem fs (globMd fs) f hf
  refine ⟨c, ?_, ?_⟩
  · show readResource fs ("memberstack://" ++ f.path) = Except.ok c
    unfold readResource
    rw [replaceFirst_scheme, hc]
  · intro t ht
    show f.title = t
    rw [htitle, ht]
    rfl

/-- Witness for C9 at a one-document corpus with a heading. -/
theorem C9_witness :
    ∃ c : Content,
      readResource fsG (ResHandle.uri ⟨"memberstack://g.md", "G", "general - G"⟩) =
        Except.ok c ∧
      ∀ t : String, titleMatch c = some t →
        ResHandle.name ⟨"memberstack://g.md", "G", "general - G"⟩ = t :=
  C9_roundtrip_read_succeeds fsG ⟨"memberstack://g.md", "G", "general - G"⟩ (by decide)

/-- Counterexample to C9 as stated: the handle of a heading-less document
carries the filename-fallback title `"plain"`, while the returned content
has no first level-1 heading whose text could equal it. -/
theorem C9_counterexample :
    listResources fsPlain = [⟨"memberstack://plain.md", "plain", "general - plain"⟩] ∧
      readResource fsPlain "memberstack://plain.md" = Except.ok ["hello"] ∧
      specFirstHeading ["hello"] = none ∧
      titleMatch ["hello"] = none := by
  refine ⟨by decide, rfl, by decide, by decide⟩
